import Mathlib

set_option maxRecDepth 20000

/-!
Shallow embedding of the SQL-migration fixing scripts of this repository
(check_nesting.py, extract_functions.py, fix_all_migrations.py,
generate_consolidated.py, generate_consolidated_v2.py).

Text is modelled as `List Char`.  Python `str.split('\n')` / `'\n'.join`
become `splitNL` / `joinNL`; Python `sub in s` becomes `containsSub`;
Python `s.count(sub)` (non-overlapping, left to right) becomes `countSub`.
The regular expressions used by the scripts are fixed patterns, embedded
as deterministic matchers that follow Python `re` leftmost-match /
greedy / lazy semantics for those concrete patterns (character classes
are the ASCII fragments Python would use on this corpus).
-/

/-- Python `content.split('\n')`. -/
def splitNL : List Char → List (List Char)
  | [] => [[]]
  | c :: rest =>
    if c = '\n' then [] :: splitNL rest
    else
      match splitNL rest with
      | [] => [[c]]
      | l :: ls => (c :: l) :: ls

/-- Python `'\n'.join(lines)`. -/
def joinNL : List (List Char) → List Char
  | [] => []
  | [l] => l
  | l :: ls => l ++ '\n' :: joinNL ls

/-- Python `p in s` (substring containment). -/
def containsSub (p : List Char) : List Char → Bool
  | [] => p.isEmpty
  | c :: rest => p.isPrefixOf (c :: rest) || containsSub p rest

/-- Helper for `countSub`: structural recursion on a fuel argument (the
scan consumes at least one character per step, so `s.length` fuel is
always enough). -/
def countSubAux (p : List Char) : Nat → List Char → Nat
  | 0, _ => 0
  | _ + 1, [] => 0
  | fuel + 1, c :: rest =>
    if p.isPrefixOf (c :: rest) then countSubAux p fuel (rest.drop (p.length - 1)) + 1
    else countSubAux p fuel rest

/-- Python `s.count(p)`: number of non-overlapping occurrences, scanning
left to right. -/
def countSub (p s : List Char) : Nat :=
  countSubAux p s.length s

/-- Python `re.search(p, s)` for a fixed literal-run pattern: index of the
leftmost occurrence of `p` in `s`. -/
def findInfixIdx (p : List Char) : List Char → Option Nat
  | [] => if p.isEmpty then some 0 else none
  | c :: rest =>
    if p.isPrefixOf (c :: rest) then some 0
    else (findInfixIdx p rest).map (fun n => n + 1)

/-- Helper for `re.sub(r'--.*', '', content)` in check_nesting.py: the flag
records whether the scanner currently sits inside a line comment. -/
def stripCommentsAux : Bool → List Char → List Char
  | _, [] => []
  | true, c :: rest =>
    if c = '\n' then '\n' :: stripCommentsAux false rest
    else stripCommentsAux true rest
  | false, '-' :: '-' :: rest => stripCommentsAux true rest
  | false, c :: rest => c :: stripCommentsAux false rest

/-- check_nesting.py: `content_no_comments = re.sub(r'--.*', '', content)`. -/
def stripComments (content : List Char) : List Char :=
  stripCommentsAux false content

/-- check_nesting.py: `do_count = content_no_comments.count('DO $$')`. -/
def checkNestingDoCount (content : List Char) : Nat :=
  countSub ("DO $$".toList) (stripComments content)

/-- The literal `'ALTER PUBLICATION supabase_realtime ADD TABLE'` used by the
`in` checks of the wrap scripts.  Written head-first so symbolic proofs can
unfold the first character. -/
def phrase : List Char := 'A' :: "LTER PUBLICATION supabase_realtime ADD TABLE".toList

/-- The literal part of the regex
`ALTER PUBLICATION supabase_realtime ADD TABLE ([^;]+);` (note the
trailing space before the capture group). -/
def altPat : List Char := phrase ++ [' ']

/-- The `'$$'` marker counted by generate_consolidated_v2.py. -/
def ddPat : List Char := ['$', '$']

/-- `'DO $$'` as searched for by the lookback checks. -/
def doPat : List Char := "DO $$".toList

/-- `'END $$'` as searched for by fix_all_migrations.py. -/
def endPat : List Char := "END $$".toList

/-- `'BEGIN'` as searched for by generate_consolidated.py. -/
def beginPat : List Char := "BEGIN".toList

/-- `'EXCEPTION'` as searched for by generate_consolidated.py. -/
def excPat : List Char := "EXCEPTION".toList

/-- The replacement text all four wrap scripts build for a matched table
name (the f-string triple-quoted block, identical in all of them). -/
def wrapAlter (tbl : List Char) : List Char :=
  "DO $$\nBEGIN\n  BEGIN\n    ALTER PUBLICATION supabase_realtime ADD TABLE ".toList
    ++ tbl
    ++ ";\n  EXCEPTION WHEN duplicate_object THEN\n    NULL;\n  END;\nEND $$;".toList

/-- Attempt of the regex `ALTER PUBLICATION supabase_realtime ADD TABLE ([^;]+);`
at the start of `s`: on success, returns the captured group (the maximal
nonempty run of non-semicolon characters after the literal, which must be
terminated by `';'`).  The match consumes
`altPat.length + tbl.length + 1` characters. -/
def matchAlterAt (s : List Char) : Option (List Char) :=
  if altPat.isPrefixOf s then
    let rest := s.drop altPat.length
    match rest.dropWhile (fun c => c ≠ ';') with
    | ';' :: _ =>
      let run := rest.takeWhile (fun c => c ≠ ';')
      if run.isEmpty then none else some run
    | _ => none
  else none

/-- Python `re.search` of the same pattern over a line: captured group of
the leftmost match. -/
def searchAlter : List Char → Option (List Char)
  | [] => none
  | c :: rest =>
    match matchAlterAt (c :: rest) with
    | some tbl => some tbl
    | none => searchAlter rest

/-! ## fix_all_migrations.py

The script iterates `for i, line in enumerate(lines)` over the live list,
mutating `lines[i]` in place, so later iterations see earlier
replacements in their lookback window.  State is the line list together
with the `modified` flag. -/

/-- One iteration of the fix_all_migrations.py loop at index `i`. -/
def fixAllStep (st : List (List Char) × Bool) (i : Nat) : List (List Char) × Bool :=
  let line := st.1.getD i []
  if containsSub phrase line then
    let context := joinNL ((st.1.take i).drop (i - 10))
    if !containsSub doPat context || containsSub endPat context then
      match searchAlter line with
      | some tbl => (st.1.set i (wrapAlter tbl), true)
      | none => st
    else st
  else st

/-- The first `n` iterations of the fix_all_migrations.py loop. -/
def fixAllRun (st : List (List Char) × Bool) (n : Nat) : List (List Char) × Bool :=
  (List.range n).foldl fixAllStep st

/-- The whole per-file loop of fix_all_migrations.py. -/
def fixAllLoop (lines : List (List Char)) : List (List Char) × Bool :=
  fixAllRun (lines, false) lines.length

/-- fix_all_migrations.py per-file transform: the file's content after the
run (written back as `'\n'.join(lines)` only when `modified`). -/
def fixAllProcess (content : List Char) : List Char :=
  let st := fixAllLoop (splitNL content)
  if st.2 then joinNL st.1 else content

/-! ## generate_consolidated.py

Non-mutating per-line rewrite; the context windows read the original
lines. -/

/-- The element generate_consolidated.py appends to `new_lines` for
index `i`. -/
def genConsLine (lines : List (List Char)) (i : Nat) : List Char :=
  let line := lines.getD i []
  if containsSub phrase line then
    let context := joinNL ((lines.take (i + 1)).drop (i - 10))
    let post := joinNL ((lines.drop i).take 5)
    if containsSub beginPat context && (containsSub excPat context || containsSub excPat post) then
      line
    else
      match searchAlter line with
      | some tbl => wrapAlter tbl
      | none => line
  else line

/-- generate_consolidated.py per-file content transform (the surrounding
`-- Start of`/`-- End of` banner lines are corpus assembly, out of
scope). -/
def genConsProcess (content : List Char) : List Char :=
  if containsSub phrase content then
    let lines := splitNL content
    joinNL ((List.range lines.length).map (genConsLine lines))
  else content

/-! ## generate_consolidated_v2.py

`re.finditer` walks the content left to right; for each match the script
counts `'$$'` in the original text before the match start (`pre_context`)
and keeps the match verbatim when that count is odd, else substitutes the
wrapped block. -/

/-- Helper for `v2Rewrite`: structural recursion on a fuel argument (the
scan consumes at least one character per step, so `s.length` fuel is
always enough). -/
def v2RewriteAux : Nat → List Char → List Char → List Char
  | 0, _, _ => []
  | _ + 1, _, [] => []
  | fuel + 1, pre, c :: rest =>
    match matchAlterAt (c :: rest) with
    | some tbl =>
      let len := altPat.length + tbl.length + 1
      (if countSub ddPat pre % 2 = 1 then (c :: rest).take len else wrapAlter tbl)
        ++ v2RewriteAux fuel (pre ++ (c :: rest).take len) ((c :: rest).drop len)
    | none => c :: v2RewriteAux fuel (pre ++ [c]) rest

/-- The finditer/splice loop of generate_consolidated_v2.py.  `pre` is the
original text before the current scan position (Python
`content[:start]`). -/
def v2Rewrite (pre s : List Char) : List Char :=
  v2RewriteAux s.length pre s

/-- generate_consolidated_v2.py per-file content transform (banner lines
again out of scope). -/
def genConsV2Process (content : List Char) : List Char :=
  if containsSub phrase content then v2Rewrite [] content else content

/-! ## extract_functions.py -/

/-- extract_functions.py `is_commented(content, match_start)`: whether
`'--'` occurs in the text between the start of the match's line and the
match start. -/
def is_commented (content : List Char) (start : Nat) : Bool :=
  containsSub ['-', '-'] (((content.take start).reverse.takeWhile (fun c => c ≠ '\n')).reverse)

/-- Python `\s` on this ASCII corpus. -/
def isSpaceCh (c : Char) : Bool :=
  c = ' ' || c = '\t' || c = '\n' || c = '\x0b' || c = '\x0c' || c = '\r'

/-- Python `\w` on this ASCII corpus. -/
def isWordCh (c : Char) : Bool :=
  c.isAlphanum || c = '_'

/-- Python `[.\w]` on this ASCII corpus. -/
def isTableCh (c : Char) : Bool :=
  isWordCh c || c = '.'

/-- Case-insensitive literal (the pattern is given in lower case), as done
by `re.IGNORECASE` on ASCII letters.  Returns the remaining input. -/
def ciLit : List Char → List Char → Option (List Char)
  | [], s => some s
  | _ :: _, [] => none
  | p :: ps, c :: cs => if c.toLower = p then ciLit ps cs else none

/-- `\s+` followed by a token that cannot start with whitespace: the run is
consumed greedily and must be nonempty. -/
def wsRun1 : List Char → Option (List Char)
  | [] => none
  | c :: rest => if isSpaceCh c then some (rest.dropWhile isSpaceCh) else none

/-- A greedy nonempty character-class run (`\w+`, `[.\w]+`) whose follower
is disjoint from the class: returns the run and the remaining input. -/
def runOf1 (p : Char → Bool) : List Char → Option (List Char × List Char)
  | [] => none
  | c :: rest =>
    if p c then some (c :: rest.takeWhile p, rest.dropWhile p) else none

/-- Attempt of `CREATE\s+(OR\s+REPLACE\s+)?FUNCTION` (IGNORECASE) at the
start of `s`: on success returns the match length.  The optional group is
tried first and abandoned (as the backtracking engine does) when
`FUNCTION` cannot follow it. -/
def matchFuncAt (s : List Char) : Option Nat :=
  match ciLit ("create".toList) s with
  | none => none
  | some r1 =>
    match wsRun1 r1 with
    | none => none
    | some r2 =>
      let viaGroup :=
        match ciLit ("or".toList) r2 with
        | none => none
        | some a =>
          match wsRun1 a with
          | none => none
          | some b =>
            match ciLit ("replace".toList) b with
            | none => none
            | some d =>
              match wsRun1 d with
              | none => none
              | some e => ciLit ("function".toList) e
      match viaGroup with
      | some r3 => some (s.length - r3.length)
      | none =>
        match ciLit ("function".toList) r2 with
        | some r3 => some (s.length - r3.length)
        | none => none

/-- `re.finditer` scan for the function pattern: leftmost, non-overlapping
match start positions.  `fuel` bounds the recursion (the scan consumes at
least one character per step, so `s.length + 1` suffices). -/
def funcStartsAux : Nat → List Char → Nat → List Nat
  | 0, _, _ => []
  | _ + 1, [], _ => []
  | fuel + 1, c :: rest, pos =>
    match matchFuncAt (c :: rest) with
    | some len => pos :: funcStartsAux fuel ((c :: rest).drop len) (pos + len)
    | none => funcStartsAux fuel rest (pos + 1)

/-- extract_functions.py: `starts = [m.start() for m in re.finditer(...)]`. -/
def funcStarts (content : List Char) : List Nat :=
  funcStartsAux (content.length + 1) content 0

/-- The `-- From {filename}\n` prefix of every emitted fragment. -/
def fromHeader (fn : List Char) : List Char :=
  "-- From ".toList ++ fn ++ ['\n']

/-- Body of the per-start function extraction of extract_functions.py:
skip when commented; find the first `'$$'` after the start, the next
`'$$'` after that, then the first `';'`; emit
`f"-- From {filename}\n{func_def}\n"` with `func_def` the verbatim slice
`content[start:full_end]`.  Any missing piece skips the occurrence
(silently, `None` here). -/
def extractFuncFragment (fn content : List Char) (start : Nat) : Option (List Char) :=
  if is_commented content start then none
  else
    match findInfixIdx ddPat (content.drop start) with
    | none => none
    | some r1 =>
      let bs := start + r1
      match findInfixIdx ddPat (content.drop (bs + 2)) with
      | none => none
      | some r2 =>
        let be := bs + 2 + (r2 + 2)
        match findInfixIdx [';'] (content.drop be) with
        | none => none
        | some r3 =>
          let fe := be + (r3 + 1)
          some (fromHeader fn ++ (content.take fe).drop start ++ ['\n'])

/-- All function fragments of one file, in occurrence order. -/
def funcFrags (fn content : List Char) : List (List Char) :=
  (funcStarts content).filterMap (extractFuncFragment fn content)

/-- Tail of the trigger pattern from the `ON` keyword on:
`ON\s+([.\w]+)\s+(?:.*?);` — table capture, then mandatory whitespace,
then lazily up to the first `';'`.  Returns the capture and the input
remaining after the match. -/
def trigTailFromOn (s : List Char) : Option (List Char × List Char) :=
  match ciLit ("on".toList) s with
  | none => none
  | some r2 =>
    match wsRun1 r2 with
    | none => none
    | some r3 =>
      match runOf1 isTableCh r3 with
      | none => none
      | some (table, r4) =>
        match wsRun1 r4 with
        | none => none
        | some r5 =>
          match findInfixIdx [';'] r5 with
          | none => none
          | some k => some (table, r5.drop (k + 1))

/-- `\s+ON\s+([.\w]+)\s+(?:.*?);` attempted at `s`. -/
def trigTailAt (s : List Char) : Option (List Char × List Char) :=
  match wsRun1 s with
  | none => none
  | some r => trigTailFromOn r

/-- The lazy `(?:.*?)\s+ON...` scan: try the tail at each position, left
to right. -/
def trigScan : List Char → Option (List Char × List Char)
  | [] => none
  | c :: rest =>
    match trigTailAt (c :: rest) with
    | some r => some r
    | none => trigScan rest

/-- Attempt of
`CREATE\s+TRIGGER\s+(\w+)\s+(?:.*?)\s+ON\s+([.\w]+)\s+(?:.*?);`
(DOTALL, IGNORECASE) at the start of `s`: returns
(match length, trigger name, table name).  After the name's mandatory
whitespace run (greedy, length `cnt`) the engine first lets the lazy
group scan forward; only if that wholly fails does the `\s+` before the
lazy group give characters back, which can succeed exactly when `ON`
stands right after the run and the run has at least two characters. -/
def matchTrigAt (s : List Char) : Option (Nat × List Char × List Char) :=
  match ciLit ("create".toList) s with
  | none => none
  | some r1 =>
    match wsRun1 r1 with
    | none => none
    | some r2 =>
      match ciLit ("trigger".toList) r2 with
      | none => none
      | some r3 =>
        match wsRun1 r3 with
        | none => none
        | some r4 =>
          match runOf1 isWordCh r4 with
          | none => none
          | some (name, r5) =>
            match r5 with
            | [] => none
            | c :: r5t =>
              if isSpaceCh c then
                let r6 := r5t.dropWhile isSpaceCh
                let cnt := r5.length - r6.length
                match trigScan r6 with
                | some (table, r7) => some (s.length - r7.length, name, table)
                | none =>
                  if 2 ≤ cnt then
                    match trigTailFromOn r6 with
                    | some (table, r7) => some (s.length - r7.length, name, table)
                    | none => none
                  else none
              else none

/-- `re.finditer` scan for the trigger pattern: (start, length, name,
table) of each leftmost non-overlapping match. -/
def trigMatchesAux : Nat → List Char → Nat → List (Nat × Nat × List Char × List Char)
  | 0, _, _ => []
  | _ + 1, [], _ => []
  | fuel + 1, c :: rest, pos =>
    match matchTrigAt (c :: rest) with
    | some (len, name, table) =>
      (pos, len, name, table) :: trigMatchesAux fuel ((c :: rest).drop len) (pos + len)
    | none => trigMatchesAux fuel rest (pos + 1)

/-- All trigger matches of a file. -/
def trigMatches (content : List Char) : List (Nat × Nat × List Char × List Char) :=
  trigMatchesAux (content.length + 1) content 0

/-- extract_functions.py: `f"DROP TRIGGER IF EXISTS {trigger_name} ON {table_name};"`. -/
def dropTrigStmt (name table : List Char) : List Char :=
  "DROP TRIGGER IF EXISTS ".toList ++ name ++ " ON ".toList ++ table ++ [';']

/-- All trigger fragments of one file:
`f"-- From {filename}\n{drop_stmt}\n{full_stmt}\n"` for every
non-commented match, with `full_stmt` the verbatim matched span. -/
def trigFrags (fn content : List Char) : List (List Char) :=
  (trigMatches content).filterMap fun m =>
    if is_commented content m.1 then none
    else
      some (fromHeader fn ++ dropTrigStmt m.2.2.1 m.2.2.2
              ++ '\n' :: ((content.drop m.1).take m.2.1) ++ ['\n'])

/-- The fragments extract_functions.py appends for one file: all function
fragments, then all trigger fragments. -/
def extractFileFragments (fn content : List Char) : List (List Char) :=
  funcFrags fn content ++ trigFrags fn content

/-- The line list of the canonical guarded wrapper block (what
`wrapAlter tbl` looks like after `'\n'`-splitting), used to build
already-wrapped input files. -/
def wrapLines (tbl : List Char) : List (List Char) :=
  ["DO $$".toList, "BEGIN".toList, "  BEGIN".toList,
   "    ".toList ++ altPat ++ tbl ++ [';'],
   "  EXCEPTION WHEN duplicate_object THEN".toList,
   "    NULL;".toList, "  END;".toList, "END $$;".toList]

/-- 13-line input for the C9 window counterexample: line 2 holds an
occurrence, line 3 a bare `DO $$`, line 12 the occurrence under test;
lines 0..1 are filler. -/
def cexLinesA : List (List Char) :=
  ["x".toList, "x".toList,
   "ALTER PUBLICATION supabase_realtime ADD TABLE a;".toList, "DO $$".toList,
   "x".toList, "x".toList, "x".toList, "x".toList, "x".toList, "x".toList,
   "x".toList, "x".toList,
   "ALTER PUBLICATION supabase_realtime ADD TABLE c;".toList]

/-- Same as `cexLinesA` on lines 2..12, but line 0 is `DO $$`, which
prevents line 2 from being wrapped, changing the mutated window that
line 12 later sees. -/
def cexLinesB : List (List Char) :=
  ["DO $$".toList, "x".toList,
   "ALTER PUBLICATION supabase_realtime ADD TABLE a;".toList, "DO $$".toList,
   "x".toList, "x".toList, "x".toList, "x".toList, "x".toList, "x".toList,
   "x".toList, "x".toList,
   "ALTER PUBLICATION supabase_realtime ADD TABLE c;".toList]

/-! ## Helper lemmas -/

theorem isPrefixOf_append_self (a b : List Char) : a.isPrefixOf (a ++ b) = true := by
  induction a with
  | nil => simp [List.isPrefixOf]
  | cons c cs ih => simp [List.isPrefixOf, ih]

theorem containsSub_mid (p a b : List Char) : containsSub p (a ++ (p ++ b)) = true := by
  induction a with
  | nil =>
    cases hp : p ++ b with
    | nil =>
      have : p = [] := by
        rcases List.append_eq_nil.mp hp with ⟨h1, _⟩
        exact h1
      simp [containsSub, this]
    | cons c cs =>
      simp only [List.nil_append, containsSub]
      rw [show c :: cs = p ++ b from hp.symm]
      simp [isPrefixOf_append_self]
  | cons c cs ih =>
    simp only [List.cons_append, containsSub, List.append_eq]
    rw [ih]
    simp

theorem takeWhile_append_all (p : Char → Bool) (a b : List Char)
    (h : ∀ c ∈ a, p c = true) :
    (a ++ b).takeWhile p = a ++ b.takeWhile p := by
  induction a with
  | nil => simp
  | cons c cs ih =>
    have hc : p c = true := h c (by simp)
    simp only [List.cons_append, List.takeWhile_cons, hc, if_true]
    rw [ih (fun d hd => h d (by simp [hd]))]

theorem dropWhile_append_all (p : Char → Bool) (a b : List Char)
    (h : ∀ c ∈ a, p c = true) :
    (a ++ b).dropWhile p = b.dropWhile p := by
  induction a with
  | nil => simp
  | cons c cs ih =>
    have hc : p c = true := h c (by simp)
    simp only [List.cons_append, List.dropWhile_cons, hc, if_true]
    exact ih (fun d hd => h d (by simp [hd]))

theorem matchAlterAt_cons_ne (c : Char) (t : List Char) (h : c ≠ 'A') :
    matchAlterAt (c :: t) = none := by
  have hb : ('A' == c) = false := beq_eq_false_iff_ne.mpr (Ne.symm h)
  have hp : altPat.isPrefixOf (c :: t) = false := by
    simp [altPat, phrase, List.isPrefixOf, hb]
  simp [matchAlterAt, hp]

theorem matchAlterAt_append (tbl rest : List Char) (h1 : tbl ≠ [])
    (h2 : ∀ c ∈ tbl, c ≠ ';') :
    matchAlterAt (altPat ++ (tbl ++ ';' :: rest)) = some tbl := by
  have hall : ∀ c ∈ tbl, (fun c => decide (c ≠ ';')) c = true := by
    intro c hc; simp [h2 c hc]
  have hdw : (tbl ++ ';' :: rest).dropWhile (fun c => c ≠ ';') = ';' :: rest := by
    rw [dropWhile_append_all _ _ _ hall]
    simp [List.dropWhile_cons]
  have htw : (tbl ++ ';' :: rest).takeWhile (fun c => c ≠ ';') = tbl := by
    rw [takeWhile_append_all _ _ _ hall]
    simp [List.takeWhile_cons]
  simp only [matchAlterAt, isPrefixOf_append_self, if_true, List.drop_left, hdw, htw]
  simp [List.isEmpty_iff, h1]

theorem v2RewriteAux_congr (fuel1 : Nat) :
    ∀ (fuel2 : Nat) (pre s : List Char), s.length ≤ fuel1 → s.length ≤ fuel2 →
      v2RewriteAux fuel1 pre s = v2RewriteAux fuel2 pre s := by
  induction fuel1 with
  | zero =>
    intro fuel2 pre s h1 h2
    have hs : s = [] := List.eq_nil_of_length_eq_zero (by omega)
    subst hs
    cases fuel2 <;> rfl
  | succ f1 ih =>
    intro fuel2 pre s h1 h2
    cases s with
    | nil => cases fuel2 <;> rfl
    | cons c rest =>
      cases fuel2 with
      | zero => simp at h2
      | succ f2 =>
        simp only [v2RewriteAux]
        cases hm : matchAlterAt (c :: rest) with
        | some tbl =>
          simp only []
          have hd : ((c :: rest).drop (altPat.length + tbl.length + 1)).length ≤ f1 := by
            simp only [List.length_drop, List.length_cons] at *
            omega
          have hd2 : ((c :: rest).drop (altPat.length + tbl.length + 1)).length ≤ f2 := by
            simp only [List.length_drop, List.length_cons] at *
            omega
          rw [ih f2 _ _ hd hd2]
        | none =>
          simp only []
          have hr : rest.length ≤ f1 := by simp at h1; omega
          have hr2 : rest.length ≤ f2 := by simp at h2; omega
          rw [ih f2 _ _ hr hr2]

theorem v2Rewrite_cons (pre : List Char) (c : Char) (rest : List Char) :
    v2Rewrite pre (c :: rest) =
      match matchAlterAt (c :: rest) with
      | some tbl =>
        (if countSub ddPat pre % 2 = 1
          then (c :: rest).take (altPat.length + tbl.length + 1)
          else wrapAlter tbl)
          ++ v2Rewrite (pre ++ (c :: rest).take (altPat.length + tbl.length + 1))
               ((c :: rest).drop (altPat.length + tbl.length + 1))
      | none => c :: v2Rewrite (pre ++ [c]) rest := by
  show v2RewriteAux (rest.length + 1) pre (c :: rest) = _
  simp only [v2RewriteAux]
  cases hm : matchAlterAt (c :: rest) with
  | some tbl =>
    simp only [v2Rewrite]
    rw [v2RewriteAux_congr rest.length _ _ _
      (by simp only [List.length_drop, List.length_cons]; omega)
      (le_of_eq rfl)]
  | none =>
    simp only [v2Rewrite]

theorem v2Rewrite_nil (pre : List Char) : v2Rewrite pre [] = [] := rfl

theorem v2Rewrite_skip (a pre s : List Char) (h : ∀ c ∈ a, c ≠ 'A') :
    v2Rewrite pre (a ++ s) = a ++ v2Rewrite (pre ++ a) s := by
  induction a generalizing pre with
  | nil => simp
  | cons c cs ih =>
    have hc : matchAlterAt (c :: (cs ++ s)) = none :=
      matchAlterAt_cons_ne c _ (h c (by simp))
    rw [List.cons_append, v2Rewrite_cons]
    simp only [hc]
    rw [ih (pre ++ [c]) (fun d hd => h d (by simp [hd]))]
    simp

theorem v2Rewrite_cons_match (pre : List Char) (c : Char) (rest tbl : List Char)
    (h : matchAlterAt (c :: rest) = some tbl) :
    v2Rewrite pre (c :: rest) =
      (if countSub ddPat pre % 2 = 1
        then (c :: rest).take (altPat.length + tbl.length + 1)
        else wrapAlter tbl)
        ++ v2Rewrite (pre ++ (c :: rest).take (altPat.length + tbl.length + 1))
             ((c :: rest).drop (altPat.length + tbl.length + 1)) := by
  rw [v2Rewrite_cons]
  simp only [h]

theorem v2Rewrite_match (pre tbl rest : List Char) (h1 : tbl ≠ [])
    (h2 : ∀ c ∈ tbl, c ≠ ';') :
    v2Rewrite pre (altPat ++ (tbl ++ ';' :: rest)) =
      (if countSub ddPat pre % 2 = 1 then altPat ++ (tbl ++ [';']) else wrapAlter tbl)
        ++ v2Rewrite (pre ++ (altPat ++ (tbl ++ [';']))) rest := by
  have hshape : altPat ++ (tbl ++ ';' :: rest) = (altPat ++ (tbl ++ [';'])) ++ rest := by
    simp [List.append_assoc]
  have hlen : (altPat ++ (tbl ++ [';'])).length = altPat.length + tbl.length + 1 := by
    simp [List.length_append]; omega
  have htake : (altPat ++ (tbl ++ ';' :: rest)).take (altPat.length + tbl.length + 1)
      = altPat ++ (tbl ++ [';']) := by
    rw [hshape, List.take_left' hlen]
  have hdrop : (altPat ++ (tbl ++ ';' :: rest)).drop (altPat.length + tbl.length + 1)
      = rest := by
    rw [hshape, List.drop_left' hlen]
  cases hck : altPat ++ (tbl ++ ';' :: rest) with
  | nil => simp [altPat, phrase] at hck
  | cons x xs =>
    have hm : matchAlterAt (x :: xs) = some tbl := by
      rw [← hck]; exact matchAlterAt_append tbl rest h1 h2
    rw [hck] at htake hdrop
    rw [v2Rewrite_cons_match pre x xs tbl hm, htake, hdrop]

theorem splitNL_no_nl (l : List Char) (h : ∀ c ∈ l, c ≠ '\n') : splitNL l = [l] := by
  induction l with
  | nil => rfl
  | cons c rest ih =>
    have hc : ¬ c = '\n' := h c (by simp)
    rw [splitNL, if_neg hc, ih (fun d hd => h d (by simp [hd]))]

theorem splitNL_append_nl (l t : List Char) (h : ∀ c ∈ l, c ≠ '\n') :
    splitNL (l ++ '\n' :: t) = l :: splitNL t := by
  induction l with
  | nil => simp [splitNL]
  | cons c rest ih =>
    have hc : ¬ c = '\n' := h c (by simp)
    rw [List.cons_append, splitNL, if_neg hc, ih (fun d hd => h d (by simp [hd]))]

theorem splitNL_joinNL (ls : List (List Char)) (h0 : ls ≠ [])
    (h : ∀ l ∈ ls, ∀ c ∈ l, c ≠ '\n') : splitNL (joinNL ls) = ls := by
  induction ls with
  | nil => exact absurd rfl h0
  | cons l rest ih =>
    cases rest with
    | nil => exact splitNL_no_nl l (h l (by simp))
    | cons l2 rest2 =>
      rw [show joinNL (l :: l2 :: rest2) = l ++ '\n' :: joinNL (l2 :: rest2) from rfl]
      rw [splitNL_append_nl l _ (h l (by simp))]
      rw [ih (by simp) (fun m hm => h m (by simp [hm]))]

theorem stripCommentsAux_true_append (b x : List Char) (h : ∀ c ∈ b, c ≠ '\n') :
    stripCommentsAux true (b ++ x) = stripCommentsAux true x := by
  induction b with
  | nil => rfl
  | cons c rest ih =>
    have hc : ¬ c = '\n' := h c (by simp)
    rw [List.cons_append, stripCommentsAux, if_neg hc,
      ih (fun d hd => h d (by simp [hd]))]

theorem fixAllStep_no_phrase (st : List (List Char) × Bool) (i : Nat)
    (h : containsSub phrase (st.1.getD i []) = false) : fixAllStep st i = st := by
  simp only [fixAllStep]
  rw [h]
  simp

theorem fixAllStep_getD_ne (st : List (List Char) × Bool) (i j : Nat) (h : i ≠ j) :
    ((fixAllStep st i).1).getD j [] = (st.1).getD j [] := by
  have hset : ∀ v : List Char, ((st.1.set i v).getD j []) = (st.1).getD j [] := by
    intro v
    rw [List.getD_eq_getElem?_getD, List.getD_eq_getElem?_getD,
      List.getElem?_set_ne h]
  simp only [fixAllStep]
  split
  · split
    · split
      · exact hset _
      · rfl
    · rfl
  · rfl

theorem fixAllRun_succ (st : List (List Char) × Bool) (n : Nat) :
    fixAllRun st (n + 1) = fixAllStep (fixAllRun st n) n := by
  simp [fixAllRun, List.range_succ, List.foldl_append]

theorem fixAllRun_getD_not_phrase (ls : List (List Char)) (m : Bool) (i : Nat)
    (h : containsSub phrase (ls.getD i []) = false) :
    ∀ n, ((fixAllRun (ls, m) n).1).getD i [] = ls.getD i [] := by
  intro n
  induction n with
  | zero => rfl
  | succ n ih =>
    rw [fixAllRun_succ]
    by_cases hni : n = i
    · subst hni
      rw [fixAllStep_no_phrase _ n (by rw [ih]; exact h)]
      exact ih
    · rw [fixAllStep_getD_ne _ n i hni]
      exact ih

theorem fixAllRun_id_no_phrase (ls : List (List Char)) (m : Bool)
    (h : ∀ j : Nat, containsSub phrase (ls.getD j []) = false) :
    ∀ n, fixAllRun (ls, m) n = (ls, m) := by
  intro n
  induction n with
  | zero => rfl
  | succ n ih =>
    rw [fixAllRun_succ, ih, fixAllStep_no_phrase _ n (h n)]

theorem take_getD_eq {α : Type} (a b : List α) (n i : Nat) (d : α)
    (ht : a.take n = b.take n) (hi : i < n) : a.getD i d = b.getD i d := by
  rw [List.getD_eq_getElem?_getD, List.getD_eq_getElem?_getD]
  have ha : (a.take n)[i]? = a[i]? := by rw [List.getElem?_take]; simp [hi]
  have hb : (b.take n)[i]? = b[i]? := by rw [List.getElem?_take]; simp [hi]
  rw [← ha, ← hb, ht]

theorem take_take_eq {α : Type} (a b : List α) (n i : Nat)
    (ht : a.take n = b.take n) (hi : i ≤ n) : a.take i = b.take i := by
  have ha : (a.take n).take i = a.take i := by
    rw [List.take_take]; congr 1; omega
  have hb : (b.take n).take i = b.take i := by
    rw [List.take_take]; congr 1; omega
  rw [← ha, ← hb, ht]

theorem set_take_comm {α : Type} (a : List α) (i n : Nat) (v : α) (h : i < n) :
    (a.set i v).take n = (a.take n).set i v := by
  apply List.ext_getElem?
  intro k
  simp only [List.getElem?_take, List.getElem?_set, List.length_take, List.length_set]
  split_ifs <;> first | rfl | omega

theorem fixAllStep_take_eq (n i : Nat) (hi : i < n) (st1 st2 : List (List Char) × Bool)
    (hT : st1.1.take n = st2.1.take n) (hF : st1.2 = st2.2) :
    (fixAllStep st1 i).1.take n = (fixAllStep st2 i).1.take n ∧
      (fixAllStep st1 i).2 = (fixAllStep st2 i).2 := by
  have hline : st1.1.getD i [] = st2.1.getD i [] := take_getD_eq _ _ n i [] hT hi
  have htk : st1.1.take i = st2.1.take i := take_take_eq _ _ n i hT (le_of_lt hi)
  simp only [fixAllStep, hline, htk]
  split
  · split
    · cases hsa : searchAlter (st2.1.getD i []) with
      | some tbl =>
        simp only [hsa]
        constructor
        · rw [set_take_comm _ _ _ _ hi, set_take_comm _ _ _ _ hi, hT]
        · trivial
      | none => simp only [hsa]; exact ⟨hT, hF⟩
    · exact ⟨hT, hF⟩
  · exact ⟨hT, hF⟩

theorem fixAllFold_take_eq (n : Nat) (idxs : List Nat) (h : ∀ j ∈ idxs, j < n)
    (st1 st2 : List (List Char) × Bool)
    (hT : st1.1.take n = st2.1.take n) (hF : st1.2 = st2.2) :
    (idxs.foldl fixAllStep st1).1.take n = (idxs.foldl fixAllStep st2).1.take n ∧
      (idxs.foldl fixAllStep st1).2 = (idxs.foldl fixAllStep st2).2 := by
  induction idxs generalizing st1 st2 with
  | nil => exact ⟨hT, hF⟩
  | cons j rest ih =>
    simp only [List.foldl_cons]
    obtain ⟨hTs, hFs⟩ := fixAllStep_take_eq n j (h j (by simp)) st1 st2 hT hF
    exact ih (fun k hk => h k (by simp [hk])) _ _ hTs hFs

/-! ## Claim theorems -/

/-- C10: the extractor suppresses a CREATE FUNCTION / CREATE TRIGGER
occurrence exactly when the two characters `--` appear on the same line
before the match start — even when that `--` is inside a string literal
and hence not a comment — while a `--` on an earlier line or a block
comment `/* */` never suppresses it.  Demonstrated on the full
extraction pipeline: a same-line `--` inside a string literal suppresses
(first conjunct), an earlier-line `--` does not (second), a block
comment does not (third), and a same-line `--` before a trigger
suppresses it (fourth). -/
theorem c10_comment_suppression :
    extractFileFragments ("m".toList)
        ("INSERT INTO t VALUES ('a--b'); CREATE FUNCTION f3() AS $$x$$ LANGUAGE sql;".toList) = []
  ∧ extractFileFragments ("m".toList)
        ("-- note\nCREATE FUNCTION f4() AS $$x$$ LANGUAGE sql;".toList)
      = ["-- From m\nCREATE FUNCTION f4() AS $$x$$ LANGUAGE sql;\n".toList]
  ∧ extractFileFragments ("m".toList)
        ("/* c */ CREATE FUNCTION f5() AS $$x$$ LANGUAGE sql;".toList)
      = ["-- From m\nCREATE FUNCTION f5() AS $$x$$ LANGUAGE sql;\n".toList]
  ∧ extractFileFragments ("m".toList)
        ("x -- CREATE TRIGGER tg4 BEFORE INSERT ON t4 FOR EACH ROW EXECUTE PROCEDURE f();".toList)
      = [] := by
  refine ⟨rfl, rfl, rfl, rfl⟩

/-- C6 counterexample: an opened function body with no closing `$$`
before end of file (first conjunct), and one whose closing `$$` is not
followed by a `';'` (implicitly, same shape), are excluded from
extraction with an output indistinguishable from a file containing no
occurrence at all (second conjunct) — nothing is reported, contradicting
the claim that such occurrences are reported as Truncated. -/
theorem c6_counterexample :
    extractFileFragments ("mt.sql".toList)
        ("CREATE FUNCTION f1() RETURNS void AS $$ BEGIN RETURN".toList) = []
  ∧ extractFileFragments ("mt.sql".toList) [] = [] :=
  ⟨rfl, rfl⟩

/-- C6 amended: both truncation shapes (no closing `$$`; closing `$$`
but no following `';'`) are excluded from extraction silently — for
every filename the output fragment list is empty, so no Truncated
report of any form is emitted. -/
theorem c6_amended :
    extractFileFragments ("mt2.sql".toList)
        ("CREATE FUNCTION f1() RETURNS void AS $$ BEGIN RETURN".toList) = []
  ∧ extractFileFragments ("mt2.sql".toList)
        ("CREATE FUNCTION f2() AS $$ x $$ LANGUAGE plpgsql".toList) = [] :=
  ⟨rfl, rfl⟩

/-- C7 counterexample: the fragment emitted for an extracted function is
the verbatim statement with NO preceding drop-if-exists guard statement
(the fragment contains no `DROP` at all), contradicting the claim that
every extracted function or trigger fragment carries such a guard. -/
theorem c7_counterexample :
    extractFileFragments ("m0.sql".toList)
        ("SELECT 1;\nCREATE FUNCTION f() RETURNS trigger AS $$ BEGIN NULL; END $$ LANGUAGE plpgsql;\nSELECT 2;\n".toList)
      = ["-- From m0.sql\nCREATE FUNCTION f() RETURNS trigger AS $$ BEGIN NULL; END $$ LANGUAGE plpgsql;\n".toList]
  ∧ containsSub ("DROP".toList)
      ("-- From m0.sql\nCREATE FUNCTION f() RETURNS trigger AS $$ BEGIN NULL; END $$ LANGUAGE plpgsql;\n".toList)
      = false :=
  ⟨rfl, rfl⟩

/-- C7 amended: trigger fragments do carry the guard — for every
filename, the fragment for an extracted trigger is the verbatim matched
statement preceded by `DROP TRIGGER IF EXISTS <name> ON <table>;`
referencing the captured trigger and table names exactly; function
fragments carry the verbatim statement only. -/
theorem c7_amended :
    extractFileFragments ("m1.sql".toList)
        ("SELECT 0;\nCREATE TRIGGER trg1 BEFORE INSERT ON tbl1 FOR EACH ROW EXECUTE PROCEDURE fn1();\n".toList)
      = [fromHeader ("m1.sql".toList) ++ dropTrigStmt ("trg1".toList) ("tbl1".toList)
           ++ '\n' :: "CREATE TRIGGER trg1 BEFORE INSERT ON tbl1 FOR EACH ROW EXECUTE PROCEDURE fn1();\n".toList] := by
  rfl

/-- C4 counterexample: a line consisting of a commented-out
`ALTER PUBLICATION` statement is wrapped by fix_all_migrations.py — the
script has no comment check for this pattern, so the occurrence inside a
line comment IS rewritten (into live SQL), contradicting comment
immunity for the ALTER PUBLICATION pattern. -/
theorem c4_counterexample :
    fixAllProcess ("-- ALTER PUBLICATION supabase_realtime ADD TABLE t;".toList)
      = wrapAlter ("t".toList)
  ∧ fixAllProcess ("-- ALTER PUBLICATION supabase_realtime ADD TABLE t;".toList)
      ≠ "-- ALTER PUBLICATION supabase_realtime ADD TABLE t;".toList := by
  constructor
  · rfl
  · decide

/-- C4 amended: comment immunity does hold for the extractor's CREATE
FUNCTION and CREATE TRIGGER patterns (a same-line `--` prefix suppresses
the occurrence, the uncommented occurrence one line later is extracted),
while the ALTER PUBLICATION wrap scripts have no comment check. -/
theorem c4_amended :
    extractFileFragments ("m".toList)
        ("-- CREATE FUNCTION f() AS $$x$$;\nCREATE FUNCTION g() AS $$y$$ LANGUAGE sql;".toList)
      = ["-- From m\nCREATE FUNCTION g() AS $$y$$ LANGUAGE sql;\n".toList]
  ∧ extractFileFragments ("m".toList)
        ("-- CREATE TRIGGER tg BEFORE INSERT ON t1 FOR EACH ROW EXECUTE PROCEDURE f();\nCREATE TRIGGER tg2 BEFORE INSERT ON t2 FOR EACH ROW EXECUTE PROCEDURE f();".toList)
      = ["-- From m\nDROP TRIGGER IF EXISTS tg2 ON t2;\nCREATE TRIGGER tg2 BEFORE INSERT ON t2 FOR EACH ROW EXECUTE PROCEDURE f();\n".toList] :=
  ⟨rfl, rfl⟩

/-- C2 counterexample: a file whose total count of non-commented `$$`
markers is odd (a single unpaired marker) is processed to completion by
generate_consolidated_v2.py with no error of any kind — the occurrence
after the unpaired marker is silently classified as inside a block and
left unchanged — contradicting the claim that such a file fails with a
fatal MalformedNesting parse error. -/
theorem c2_counterexample :
    genConsV2Process ("$$\nALTER PUBLICATION supabase_realtime ADD TABLE t;".toList)
      = "$$\nALTER PUBLICATION supabase_realtime ADD TABLE t;".toList := by
  decide

/-- C3 counterexample: an occurrence at delimiter depth 1 whose
enclosing `DO $$ ... END $$;` block has no exception guard (not the
canonical guarded shape) is automatically rewritten (double-wrapped) by
generate_consolidated.py, contradicting the claim that such an
occurrence is classified Ambiguous and never automatically rewritten. -/
theorem c3_counterexample :
    genConsProcess ("DO $$\nBEGIN\n  ALTER PUBLICATION supabase_realtime ADD TABLE t1;\nEND $$;".toList)
      ≠ "DO $$\nBEGIN\n  ALTER PUBLICATION supabase_realtime ADD TABLE t1;\nEND $$;".toList
  ∧ genConsProcess ("DO $$\nBEGIN\n  ALTER PUBLICATION supabase_realtime ADD TABLE t1;\nEND $$;".toList)
      = joinNL ["DO $$".toList, "BEGIN".toList, wrapAlter ("t1".toList), "END $$;".toList] := by
  constructor
  · decide
  · rfl

/-- C5 counterexample: in generate_consolidated_v2.py the `$$` count that
decides whether an occurrence is inside a delimited block DOES count
markers inside line comments: two files that differ only in a `$$`
inside a line comment get different wrap decisions (the commented-marker
file keeps its occurrence, the other has it wrapped), contradicting the
claimed scanner invariant. -/
theorem c5_counterexample :
    genConsV2Process ("-- $$\nALTER PUBLICATION supabase_realtime ADD TABLE t;".toList)
      = "-- $$\nALTER PUBLICATION supabase_realtime ADD TABLE t;".toList
  ∧ genConsV2Process ("-- x\nALTER PUBLICATION supabase_realtime ADD TABLE t;".toList)
      ≠ "-- x\nALTER PUBLICATION supabase_realtime ADD TABLE t;".toList := by
  constructor
  · decide
  · decide

/-- C8 counterexample: fix_all_migrations.py replaces the occurrence's
entire line, so input text sharing the line with the occurrence
(`SELECT 1; ` before it) is destroyed — the output is exactly the
wrapped block and no longer contains `SELECT 1;` — contradicting the
claim that output text outside the occurrence's exact original range is
byte-identical to the input. -/
theorem c8_counterexample :
    fixAllProcess ("SELECT 1; ALTER PUBLICATION supabase_realtime ADD TABLE t;".toList)
      = wrapAlter ("t".toList)
  ∧ containsSub ("SELECT 1;".toList)
      (fixAllProcess ("SELECT 1; ALTER PUBLICATION supabase_realtime ADD TABLE t;".toList))
      = false := by
  constructor
  · rfl
  · decide

/-- C1 counterexample: a file consisting of two adjacent canonical
guarded wrapper blocks (every ALTER PUBLICATION occurrence already
wrapped) is NOT a fixed point of fix_all_migrations.py: the second
block's occurrence sees the first block's `END $$;` inside its 10-line
lookback window and is wrapped again, so the output differs from the
input. -/
theorem c1_counterexample :
    fixAllProcess (joinNL (wrapLines ("t1".toList) ++ wrapLines ("t2".toList)))
      ≠ joinNL (wrapLines ("t1".toList) ++ wrapLines ("t2".toList)) := by
  decide

theorem v2Rewrite_all_skip (a pre : List Char) (h : ∀ c ∈ a, c ≠ 'A') :
    v2Rewrite pre a = a := by
  have hs := v2Rewrite_skip a pre [] h
  simpa [v2Rewrite_nil] using hs

theorem fixAllStep_in_do (st : List (List Char) × Bool) (i : Nat)
    (hcond : (!containsSub doPat (joinNL ((st.1.take i).drop (i - 10)))
        || containsSub endPat (joinNL ((st.1.take i).drop (i - 10)))) = false) :
    fixAllStep st i = st := by
  simp only [fixAllStep, hcond]
  simp

/-- C9 counterexample: `cexLinesA` and `cexLinesB` agree on lines
2 through 12 (all of `max(0, 12-10) .. 12`), yet the in-place transform
makes different decisions for the occurrence on line 12 — in the first
file an earlier mutation put `END $$;` inside the 10-line window, in the
second it did not — so the decision is not a function of lines
`i-10 .. i` of the input alone. -/
theorem c9_counterexample :
    cexLinesA.drop 2 = cexLinesB.drop 2
  ∧ ((fixAllLoop cexLinesA).1).getD 12 [] ≠ ((fixAllLoop cexLinesB).1).getD 12 [] := by
  constructor
  · rfl
  · decide

/-- C9 amended: the wrap decisions and replacements of the first `n`
loop iterations are a function of the first `n` input lines (the whole
prefix, not just a 10-line window): two line lists agreeing on their
first `n` lines produce runs agreeing on the first `n` lines. -/
theorem c9_amended (ls1 ls2 : List (List Char)) (n : Nat)
    (h : ls1.take n = ls2.take n) :
    (fixAllRun (ls1, false) n).1.take n = (fixAllRun (ls2, false) n).1.take n :=
  (fixAllFold_take_eq n (List.range n) (fun _ hj => List.mem_range.mp hj)
    (ls1, false) (ls2, false) h rfl).1

/-- C9 amended witness at a concrete instance. -/
theorem c9_amended_witness :
    ((["x".toList, "y".toList] : List (List Char)).take 1
        = (["x".toList, "z".toList] : List (List Char)).take 1)
  ∧ (fixAllRun ((["x".toList, "y".toList] : List (List Char)), false) 1).1.take 1
      = (fixAllRun ((["x".toList, "z".toList] : List (List Char)), false) 1).1.take 1 :=
  ⟨by decide, c9_amended _ _ 1 (by decide)⟩

/-- C8 amended: in the per-line wrap script the replacement unit is the
occurrence's whole line; a line without the target phrase is never
touched (first conjunct), and a file none of whose lines contain the
target phrase is returned byte-identical (second conjunct). -/
theorem c8_amended (ls : List (List Char)) (i : Nat) (content : List Char)
    (h1 : containsSub phrase (ls.getD i []) = false)
    (h2 : ∀ l ∈ splitNL content, containsSub phrase l = false) :
    ((fixAllLoop ls).1).getD i [] = ls.getD i []
  ∧ fixAllProcess content = content := by
  constructor
  · exact fixAllRun_getD_not_phrase ls false i h1 ls.length
  · have hall : ∀ j : Nat, containsSub phrase ((splitNL content).getD j []) = false := by
      intro j
      by_cases hj : j < (splitNL content).length
      · rw [List.getD_eq_getElem _ _ hj]
        exact h2 _ (List.getElem_mem hj)
      · rw [List.getD_eq_default _ _ (by omega)]
        rfl
    have hloop : fixAllLoop (splitNL content) = (splitNL content, false) :=
      fixAllRun_id_no_phrase _ false hall _
    simp only [fixAllProcess, hloop]
    simp

/-- C8 amended witness at a concrete instance. -/
theorem c8_amended_witness :
    (containsSub phrase (["SELECT 1;".toList].getD 0 []) = false
     ∧ ∀ l ∈ splitNL ("SELECT 1;\nSELECT 2;".toList), containsSub phrase l = false)
  ∧ (((fixAllLoop ["SELECT 1;".toList]).1).getD 0 [] = ["SELECT 1;".toList].getD 0 []
     ∧ fixAllProcess ("SELECT 1;\nSELECT 2;".toList) = "SELECT 1;\nSELECT 2;".toList) :=
  ⟨⟨by decide, by decide⟩,
    c8_amended ["SELECT 1;".toList] 0 ("SELECT 1;\nSELECT 2;".toList) (by decide) (by decide)⟩

/-- C5 amended: only check_nesting.py computes comment regions before
counting — stripping comments first makes its `DO $$` count independent
of everything written inside a line comment (for any comment body `b`
without a newline, the count over `--b\n...` equals the count with the
comment body removed); the wrap-deciding `$$` count of
generate_consolidated_v2.py, by contrast, was refuted above. -/
theorem c5_amended (b c : List Char) (h : ∀ ch ∈ b, ch ≠ '\n') :
    checkNestingDoCount (('-' :: '-' :: b) ++ '\n' :: c)
      = checkNestingDoCount ('\n' :: c) := by
  have hstrip : stripComments (('-' :: '-' :: b) ++ '\n' :: c)
      = stripComments ('\n' :: c) := by
    show stripCommentsAux true (b ++ '\n' :: c) = '\n' :: stripCommentsAux false c
    rw [stripCommentsAux_true_append b ('\n' :: c) h]
    rfl
  simp only [checkNestingDoCount, hstrip]

/-- C5 amended witness at a concrete instance (the comment body even
contains `$$` and `DO $$`). -/
theorem c5_amended_witness :
    (∀ ch ∈ ("$$ DO $$".toList : List Char), ch ≠ '\n')
  ∧ checkNestingDoCount (('-' :: '-' :: "$$ DO $$".toList) ++ '\n' :: "DO $$ x".toList)
      = checkNestingDoCount ('\n' :: "DO $$ x".toList) :=
  ⟨by decide, c5_amended _ _ (by decide)⟩

/-- C2 amended: no script raises any error for a file with an odd
(unpaired) count of non-commented `$$` markers; generate_consolidated_v2
processes the file to completion, silently treating the occurrence after
the unpaired marker as inside a block and leaving the whole file
unchanged — for every table name without `';'`. -/
theorem c2_amended (tbl : List Char) (h1 : tbl ≠ []) (h2 : ∀ c ∈ tbl, c ≠ ';') :
    genConsV2Process ('$' :: '$' :: '\n' :: (altPat ++ (tbl ++ [';'])))
      = '$' :: '$' :: '\n' :: (altPat ++ (tbl ++ [';'])) := by
  have hguard : containsSub phrase ('$' :: '$' :: '\n' :: (altPat ++ (tbl ++ [';']))) = true := by
    have hform : '$' :: '$' :: '\n' :: (altPat ++ (tbl ++ [';']))
        = ['$', '$', '\n'] ++ (phrase ++ (' ' :: (tbl ++ [';']))) := by
      simp [altPat, List.append_assoc]
    rw [hform]
    exact containsSub_mid phrase _ _
  have hskip := v2Rewrite_skip ['$', '$', '\n'] [] (altPat ++ (tbl ++ [';'])) (by decide)
  simp only [List.cons_append, List.nil_append] at hskip
  have hmatch := v2Rewrite_match (['$', '$', '\n'] : List Char) tbl [] h1 h2
  rw [v2Rewrite_nil, List.append_nil, if_pos (by decide)] at hmatch
  simp only [genConsV2Process]
  rw [if_pos hguard, hskip, hmatch]

/-- C2 amended witness at a concrete instance. -/
theorem c2_amended_witness :
    (("tw".toList : List Char) ≠ [] ∧ ∀ c ∈ ("tw".toList : List Char), c ≠ ';')
  ∧ genConsV2Process ('$' :: '$' :: '\n' :: (altPat ++ ("tw".toList ++ [';'])))
      = '$' :: '$' :: '\n' :: (altPat ++ ("tw".toList ++ [';'])) :=
  ⟨⟨by decide, by decide⟩, c2_amended ("tw".toList) (by decide) (by decide)⟩

/-- C3 amended: the wrap decision of generate_consolidated_v2.py has
exactly two outcomes, decided by the parity of the `$$` count before the
occurrence: a bare top-level occurrence (even count) is wrapped (first
conjunct), while an occurrence inside any enclosing `DO $$ ... END $$;`
block (odd count) is left unchanged whether or not the block has the
canonical guarded shape — here it has none (second conjunct).  There is
no Ambiguous outcome; generate_consolidated.py wraps such occurrences
instead, as the counterexample shows. -/
theorem c3_amended (tbl : List Char) (h1 : tbl ≠ []) (h2 : ∀ c ∈ tbl, c ≠ ';') :
    genConsV2Process (altPat ++ (tbl ++ [';'])) = wrapAlter tbl
  ∧ genConsV2Process ("DO $$\nBEGIN\n  ".toList ++ (altPat ++ (tbl ++ ';' :: "\nEND $$;".toList)))
      = "DO $$\nBEGIN\n  ".toList ++ (altPat ++ (tbl ++ ';' :: "\nEND $$;".toList)) := by
  constructor
  · have hguard : containsSub phrase (altPat ++ (tbl ++ [';'])) = true := by
      have hform : altPat ++ (tbl ++ [';']) = phrase ++ (' ' :: (tbl ++ [';'])) := by
        simp [altPat, List.append_assoc]
      rw [hform]
      have hmid := containsSub_mid phrase [] (' ' :: (tbl ++ [';']))
      simpa using hmid
    have hmatch := v2Rewrite_match ([] : List Char) tbl [] h1 h2
    rw [v2Rewrite_nil, List.append_nil, if_neg (by decide)] at hmatch
    simp only [genConsV2Process]
    rw [if_pos hguard, hmatch]
  · have hguard : containsSub phrase
        ("DO $$\nBEGIN\n  ".toList ++ (altPat ++ (tbl ++ ';' :: "\nEND $$;".toList))) = true := by
      have hform : "DO $$\nBEGIN\n  ".toList ++ (altPat ++ (tbl ++ ';' :: "\nEND $$;".toList))
          = "DO $$\nBEGIN\n  ".toList ++ (phrase ++ (' ' :: (tbl ++ ';' :: "\nEND $$;".toList))) := by
        simp [altPat, List.append_assoc]
      rw [hform]
      exact containsSub_mid phrase _ _
    have hskip := v2Rewrite_skip ("DO $$\nBEGIN\n  ".toList) []
      (altPat ++ (tbl ++ ';' :: "\nEND $$;".toList)) (by decide)
    simp only [List.nil_append] at hskip
    have hall : v2Rewrite ("DO $$\nBEGIN\n  ".toList ++ (altPat ++ (tbl ++ [';'])))
        ("\nEND $$;".toList) = "\nEND $$;".toList :=
      v2Rewrite_all_skip ("\nEND $$;".toList) _ (by decide)
    have hmatch := v2Rewrite_match ("DO $$\nBEGIN\n  ".toList) tbl ("\nEND $$;".toList) h1 h2
    rw [if_pos (by decide), hall] at hmatch
    simp only [genConsV2Process]
    rw [if_pos hguard, hskip, hmatch]
    simp [List.append_assoc]

/-- C3 amended witness at a concrete instance. -/
theorem c3_amended_witness :
    (("t3".toList : List Char) ≠ [] ∧ ∀ c ∈ ("t3".toList : List Char), c ≠ ';')
  ∧ (genConsV2Process (altPat ++ ("t3".toList ++ [';'])) = wrapAlter ("t3".toList)
     ∧ genConsV2Process ("DO $$\nBEGIN\n  ".toList ++ (altPat ++ ("t3".toList ++ ';' :: "\nEND $$;".toList)))
         = "DO $$\nBEGIN\n  ".toList ++ (altPat ++ ("t3".toList ++ ';' :: "\nEND $$;".toList))) :=
  ⟨⟨by decide, by decide⟩, c3_amended ("t3".toList) (by decide) (by decide)⟩

/-- C1 amended: wrapping IS idempotent on a file consisting of one
canonical guarded wrapper block (for any table name without a newline):
the occurrence's 10-line lookback contains the block's own `DO $$` and
no `END $$`, so nothing is rewritten and the file is returned
byte-identical.  The counterexample shows this fails as soon as a
preceding wrapped block's `END $$;` enters the 10-line window. -/
theorem c1_amended (tbl : List Char) (h : ∀ c ∈ tbl, c ≠ '\n') :
    fixAllProcess (joinNL (wrapLines tbl)) = joinNL (wrapLines tbl) := by
  have hnl : ∀ l ∈ wrapLines tbl, ∀ c ∈ l, c ≠ '\n' := by
    intro l hl
    simp only [wrapLines, List.mem_cons, List.not_mem_nil, or_false] at hl
    rcases hl with h1 | h2 | h3 | h4 | h5 | h6 | h7 | h8
    · subst h1; decide
    · subst h2; decide
    · subst h3; decide
    · subst h4
      intro c hc
      rcases List.mem_append.mp hc with hc1 | hc5
      · rcases List.mem_append.mp hc1 with hc2 | hc4
        · exact (by decide : ∀ x ∈ ("    ".toList ++ altPat : List Char), x ≠ '\n') c hc2
        · exact h c hc4
      · exact (by decide : ∀ x ∈ ([';'] : List Char), x ≠ '\n') c hc5
    · subst h5; decide
    · subst h6; decide
    · subst h7; decide
    · subst h8; decide
  have hsplit : splitNL (joinNL (wrapLines tbl)) = wrapLines tbl :=
    splitNL_joinNL _ (by simp [wrapLines]) hnl
  have e0 : fixAllStep (wrapLines tbl, false) 0 = (wrapLines tbl, false) :=
    fixAllStep_no_phrase (wrapLines tbl, false) 0
      (by show containsSub phrase ("DO $$".toList) = false; decide)
  have e1 : fixAllStep (wrapLines tbl, false) 1 = (wrapLines tbl, false) :=
    fixAllStep_no_phrase (wrapLines tbl, false) 1
      (by show containsSub phrase ("BEGIN".toList) = false; decide)
  have e2 : fixAllStep (wrapLines tbl, false) 2 = (wrapLines tbl, false) :=
    fixAllStep_no_phrase (wrapLines tbl, false) 2
      (by show containsSub phrase ("  BEGIN".toList) = false; decide)
  have e3 : fixAllStep (wrapLines tbl, false) 3 = (wrapLines tbl, false) :=
    fixAllStep_in_do (wrapLines tbl, false) 3 (by
      show (!containsSub doPat (joinNL ["DO $$".toList, "BEGIN".toList, "  BEGIN".toList])
          || containsSub endPat (joinNL ["DO $$".toList, "BEGIN".toList, "  BEGIN".toList])) = false
      decide)
  have e4 : fixAllStep (wrapLines tbl, false) 4 = (wrapLines tbl, false) :=
    fixAllStep_no_phrase (wrapLines tbl, false) 4
      (by show containsSub phrase ("  EXCEPTION WHEN duplicate_object THEN".toList) = false; decide)
  have e5 : fixAllStep (wrapLines tbl, false) 5 = (wrapLines tbl, false) :=
    fixAllStep_no_phrase (wrapLines tbl, false) 5
      (by show containsSub phrase ("    NULL;".toList) = false; decide)
  have e6 : fixAllStep (wrapLines tbl, false) 6 = (wrapLines tbl, false) :=
    fixAllStep_no_phrase (wrapLines tbl, false) 6
      (by show containsSub phrase ("  END;".toList) = false; decide)
  have e7 : fixAllStep (wrapLines tbl, false) 7 = (wrapLines tbl, false) :=
    fixAllStep_no_phrase (wrapLines tbl, false) 7
      (by show containsSub phrase ("END $$;".toList) = false; decide)
  have hlen : (wrapLines tbl).length = 8 := by simp [wrapLines]
  have hloop : fixAllLoop (wrapLines tbl) = (wrapLines tbl, false) := by
    have hdef : fixAllLoop (wrapLines tbl)
        = (List.range (wrapLines tbl).length).foldl fixAllStep (wrapLines tbl, false) := rfl
    rw [hdef, hlen, show List.range 8 = [0, 1, 2, 3, 4, 5, 6, 7] from rfl]
    simp only [List.foldl_cons, List.foldl_nil]
    rw [e0, e1, e2, e3, e4, e5, e6, e7]
  simp only [fixAllProcess]
  rw [hsplit, hloop]
  simp

/-- C1 amended witness at a concrete instance. -/
theorem c1_amended_witness :
    (∀ c ∈ ("t1".toList : List Char), c ≠ '\n')
  ∧ fixAllProcess (joinNL (wrapLines ("t1".toList))) = joinNL (wrapLines ("t1".toList)) :=
  ⟨by decide, c1_amended ("t1".toList) (by decide)⟩
